import Mathlib

/-!
Shallow embedding of the core of the renderer-test raytracer
(src/raytracer/world.hpp, src/raytracer/world.cpp, src/math/angle.hpp,
the math matrix header, and src/draw/color.hpp), together with theorems
settling the frozen claims about it.

Modelling conventions, used throughout:

* f32 values are modelled as exact rationals: every arithmetic operation of the
  source (addition, subtraction, multiplication, division, comparison, clamp)
  is performed exactly over the rationals, and decimal literals of the source
  are taken at face value.  The claims settled here are algebraic and
  structural, not statements about last-ulp float rounding.
* the irrational library routines the source calls (std::sqrt, std::sin,
  std::cos, std::tan) cannot be rational-valued functions; they enter the
  embedding as oracle parameters (FloatOracle).  A theorem that depends on a
  square root carries a hypothesis pinning the oracle value at the argument
  where the code evaluates it, and its witness instantiates the oracle
  concretely.
* usize indices are Nat; out-of-range indexing, undefined behaviour in the
  source, is modelled with getD and a default element.
-/

namespace raytracer

/-- Embedding of math.Vector of f32 and length 3 (math matrix header): a triple
of rational components. -/
structure Vec3 where
  x : ℚ
  y : ℚ
  z : ℚ
deriving DecidableEq

/-- Componentwise addition (Matrix operator plus). -/
instance : Add Vec3 := ⟨fun a b => ⟨a.x + b.x, a.y + b.y, a.z + b.z⟩⟩

/-- Componentwise subtraction (Matrix operator minus). -/
instance : Sub Vec3 := ⟨fun a b => ⟨a.x - b.x, a.y - b.y, a.z - b.z⟩⟩

/-- Componentwise negation (unary Matrix operator minus). -/
instance : Neg Vec3 := ⟨fun a => ⟨-a.x, -a.y, -a.z⟩⟩

/-- Scaling by a scalar (Matrix operator star with a scalar). -/
instance : HMul Vec3 ℚ Vec3 := ⟨fun a s => ⟨a.x * s, a.y * s, a.z * s⟩⟩

/-- Division by a scalar (Matrix operator slash with a scalar). -/
instance : HDiv Vec3 ℚ Vec3 := ⟨fun a s => ⟨a.x / s, a.y / s, a.z / s⟩⟩

/-- Adding a scalar to every component (Matrix operator plus with a scalar);
the source uses this when a scalar term is accumulated into a color vector. -/
instance : HAdd Vec3 ℚ Vec3 := ⟨fun a s => ⟨a.x + s, a.y + s, a.z + s⟩⟩

/-- The zero-initialized vector (default Matrix constructor). -/
def Vec3.zero : Vec3 := ⟨0, 0, 0⟩

instance : OfNat Vec3 0 := ⟨Vec3.zero⟩

/-- Embedding of Vector.dot. -/
def Vec3.dot (a b : Vec3) : ℚ := a.x * b.x + a.y * b.y + a.z * b.z

/-- Embedding of Vector.cross. -/
def Vec3.cross (a b : Vec3) : Vec3 :=
  ⟨a.y * b.z - a.z * b.y, a.z * b.x - a.x * b.z, a.x * b.y - a.y * b.x⟩

/-- Embedding of Matrix.hadamard: componentwise product. -/
def Vec3.hadamard (a b : Vec3) : Vec3 := ⟨a.x * b.x, a.y * b.y, a.z * b.z⟩

/-- Componentwise application of a scalar function (the map used by the GI
clamp in world.cpp). -/
def Vec3.mapQ (a : Vec3) (f : ℚ → ℚ) : Vec3 := ⟨f a.x, f a.y, f a.z⟩

/-- Embedding of Vector.magnitude: the square root of the sum of squares.  The
square root enters through the oracle parameter sq, standing for std::sqrt. -/
def magnitudeW (sq : ℚ → ℚ) (a : Vec3) : ℚ :=
  sq (a.x * a.x + a.y * a.y + a.z * a.z)

/-- Embedding of Vector.normalized: divide every component by the magnitude. -/
def normalizedW (sq : ℚ → ℚ) (a : Vec3) : Vec3 :=
  let m := magnitudeW sq a
  ⟨a.x / m, a.y / m, a.z / m⟩

/-- Embedding of the scalar math.mix of the math matrix header. -/
def mixQ (lhs rhs t : ℚ) : ℚ := lhs + t * (rhs - lhs)

/-- Embedding of the componentwise math.mix on vectors. -/
def mixV (lhs rhs : Vec3) (t : ℚ) : Vec3 :=
  ⟨mixQ lhs.x rhs.x t, mixQ lhs.y rhs.y t, mixQ lhs.z rhs.z t⟩

/-- Embedding of std::clamp with the comparison order of the standard. -/
def clampQ (v lo hi : ℚ) : ℚ := if v < lo then lo else if hi < v then hi else v

/-- Conversion of an f32 value to u8, as C++ performs it at the call of
draw.Color.rgba: truncation toward zero.  The arguments this embedding feeds it
are clamped into [0, 255], hence nonnegative, where toward-zero truncation is
the floor. -/
def truncToNat (q : ℚ) : Nat := Int.toNat ⌊q⌋

/-- Embedding of draw.Color (src/draw/color.hpp): four u8 channels. -/
structure DrawColor where
  r : Nat
  g : Nat
  b : Nat
  a : Nat
deriving DecidableEq

/-- Embedding of draw.Color.rgba with its default alpha argument of 255. -/
def DrawColor.rgba (r g b : Nat) : DrawColor := ⟨r, g, b, 255⟩

/-- Embedding of raytracer.Color (world.hpp): three linear f32 channels. -/
structure Color where
  r : ℚ
  g : ℚ
  b : ℚ
deriving DecidableEq

/-- Implicit conversion of raytracer.Color to math.Vector. -/
def Color.toVec (c : Color) : Vec3 := ⟨c.r, c.g, c.b⟩

/-- Implicit conversion of math.Vector to raytracer.Color. -/
def Vec3.toColor (v : Vec3) : Color := ⟨v.x, v.y, v.z⟩

/-- Embedding of the implicit conversion of raytracer.Color to draw.Color
(world.hpp lines 27 to 33): each channel is scaled by 255, clamped to
[0, 255] by std::clamp, and then passed through the u8 parameters of
draw.Color.rgba, a conversion that truncates toward zero. -/
def Color.toDrawColor (c : Color) : DrawColor :=
  DrawColor.rgba
    (truncToNat (clampQ (c.r * 255) 0 255))
    (truncToNat (clampQ (c.g * 255) 0 255))
    (truncToNat (clampQ (c.b * 255) 0 255))

/-- Embedding of the converting constructor of raytracer.Color from
draw.Color: each u8 channel divided by 255. -/
def DrawColor.toColor (c : DrawColor) : Color :=
  ⟨(c.r : ℚ) / 255, (c.g : ℚ) / 255, (c.b : ℚ) / 255⟩

/-- Modelled from the spec (section 4.2): the prescribed 8-bit conversion
rounds after clamping, with std::round semantics; on the nonnegative clamped
value, rounding half away from zero is the floor of the value plus one half. -/
def specRoundChannel (c : ℚ) : Nat := Int.toNat ⌊clampQ (c * 255) 0 255 + 1 / 2⌋

/-- The color constant draw.color.pico.RED used for the default material. -/
def picoRed : DrawColor := ⟨255, 0, 77, 255⟩

/-- Embedding of BsdfMaterial.Mode (world.hpp lines 424 to 431); constructor
order is the declaration order of the C++ enumeration. -/
inductive Mode where
  | default
  | diffuse
  | cookTorrance
  | fresnel
  | normalDistribution
  | microfacets
deriving DecidableEq

/-- Embedding of BsdfMaterial.GiMode (world.hpp lines 433 to 435). -/
inductive GiMode where
  | none
  | simple
deriving DecidableEq

/-- Oracle bundle for the irrational float routines of the C runtime.  Each
field stands for the value the corresponding f32 routine returns; theorems
constrain the fields only at the arguments where the embedded code evaluates
them. -/
structure FloatOracle where
  sqrtO : ℚ → ℚ
  sinO : ℚ → ℚ
  cosO : ℚ → ℚ
  tanO : ℚ → ℚ

/-- The f64 value of the pi literal of src/math/angle.hpp (the double nearest
to pi). -/
def mathPi : ℚ := 884279719003555 / 281474976710656

/-- The f32 cast of math.pi, as evaluated at line 58 of world.cpp. -/
def pi32 : ℚ := 13176795 / 4194304

/-- Embedding of the closed material hierarchy of world.hpp (SolidColorMaterial,
LambertMaterial, BsdfMaterial) as a sum; each constructor carries the data
members of the corresponding class. -/
inductive Material where
  | solid (color : Color)
  | lambert (color : Color) (diffuse_reflectance : ℚ)
  | bsdf (color : Color) (emissive : Color) (roughness : ℚ) (metallic : ℚ)
deriving DecidableEq

/-- Embedding of the virtual Material operator== dispatch: the first argument is
the stored material whose override runs, the second the right-hand side; the
dynamic_cast fails across kinds.  SolidColorMaterial compares color (world.hpp
lines 378 to 381); LambertMaterial compares color only, ignoring
diffuse_reflectance (lines 394 to 397); BsdfMaterial compares color, roughness
and metallic, ignoring emissive (lines 419 to 422). -/
def matEq : Material → Material → Bool
  | .solid c, .solid c2 => c == c2
  | .lambert c _, .lambert c2 _ => c == c2
  | .bsdf c _ r m, .bsdf c2 _ r2 m2 => c == c2 && r == r2 && m == m2
  | _, _ => false

/-- Embedding of raytracer.Sphere. -/
structure Sphere where
  position : Vec3
  radius : ℚ
deriving DecidableEq

/-- Embedding of raytracer.Plane. -/
structure Plane where
  position : Vec3
  normal : Vec3
deriving DecidableEq

/-- Embedding of the Shape variant of world.hpp over the sphere and plane
alternatives.  The mesh alternative is not modelled inside worlds: its
intersect routine goes through the 4x4 matrix inverse, which is not among the
sources, and no claim settled here places a mesh in a world.  The mesh BVH
construction, which the claims do exercise, is embedded separately below. -/
inductive Shape where
  | sphere (s : Sphere)
  | plane (p : Plane)
deriving DecidableEq

/-- Embedding of raytracer.Hit. -/
structure Hit where
  origin : Vec3
  normal : Vec3
  distance : ℚ
  material_index : Nat
deriving DecidableEq

/-- Embedding of raytracer.PointLight. -/
structure PointLight where
  position : Vec3
  color : Color
deriving DecidableEq

/-- Embedding of the World state (world.hpp lines 518 to 537): scene
collections, camera state and render flags, with the default member
initializers of the class applied by World.init below. -/
structure World where
  object_data : List (Shape × Nat)
  material_data : List Material
  light_data : List PointLight
  camera_position : Vec3
  camera_pitch : ℚ
  camera_yaw : ℚ
  camera_roll : ℚ
  background_color : Color
  fov : ℚ
  checkerboard : Bool
  shadows : Bool
  bsdf_mode : Mode
  gi_mode : GiMode

/-- Embedding of the World constructor: all defaults, and the solid red
default material pushed at index 0.  The default fov is deg(80.f), which
multiplies by the f32 cast of pi and divides by 180. -/
def World.init : World :=
  { object_data := []
    material_data := [.solid picoRed.toColor]
    light_data := []
    camera_position := Vec3.zero
    camera_pitch := 0
    camera_yaw := 0
    camera_roll := 0
    background_color := ⟨0, 0, 0⟩
    fov := 80 * pi32 / 180
    checkerboard := true
    shadows := true
    bsdf_mode := .default
    gi_mode := .none }

/-- The iterator walk of indirect_find: starting at position i, the index of
the first remaining material whose virtual operator== accepts the argument. -/
def indirectFindAux (mats : List Material) (e : Material) (i : Nat) : Option Nat :=
  match mats with
  | [] => none
  | m :: rest => if matEq m e then some i else indirectFindAux rest e (i + 1)

/-- Embedding of indirect_find (world.hpp lines 466 to 474) as used by add: the
index of the first stored material whose virtual operator== accepts the
argument, if any. -/
def indirectFind (mats : List Material) (e : Material) : Option Nat :=
  indirectFindAux mats e 0

/-- Embedding of World.add (world.hpp lines 580 to 591): deduplicate the
material through indirect_find, otherwise append it; then append the object
paired with the material index.  Returns the updated world and the object
index the returned Ref carries. -/
def World.add (w : World) (object : Shape) (material : Material) : World × Nat :=
  match indirectFind w.material_data material with
  | some i =>
      ({ w with object_data := w.object_data ++ [(object, i)] }, w.object_data.length)
  | none =>
      ({ w with
          material_data := w.material_data ++ [material]
          object_data := w.object_data ++ [(object, w.material_data.length)] },
        w.object_data.length)

/-- Embedding of the light overload of World.add. -/
def World.addLight (w : World) (light : PointLight) : World :=
  { w with light_data := w.light_data ++ [light] }

/-- Embedding of World.material: dereference of the stored box.  An
out-of-range index is undefined behaviour in the source; the embedding returns
an arbitrary default there. -/
def World.material (w : World) (index : Nat) : Material :=
  w.material_data.getD index (.solid ⟨0, 0, 0⟩)

/-- Embedding of World.cycle_bsdf_mode (world.hpp lines 641 to 651). -/
def World.cycle_bsdf_mode (w : World) : World :=
  { w with
      bsdf_mode :=
        match w.bsdf_mode with
        | .default => .diffuse
        | .diffuse => .cookTorrance
        | .cookTorrance => .fresnel
        | .fresnel => .normalDistribution
        | .normalDistribution => .microfacets
        | .microfacets => .default }

/-- The comparison (not best_hit or distance < best_hit->distance) guarding the
best-hit update inside cast_ray. -/
def betterB (distance : ℚ) : Option Hit → Bool
  | none => true
  | some bh => distance < bh.distance

/-- Embedding of World.cast_ray (world.hpp lines 699 to 757): visit every
object in order and keep the closest accepted hit.  The sphere branch solves
the quadratic with the std::sqrt oracle sq; the plane branch rejects
near-parallel rays with the 1e-6f threshold.  See the Shape comment for the
mesh branch. -/
def World.cast_ray (sq : ℚ → ℚ) (w : World) (origin direction : Vec3) : Option Hit :=
  w.object_data.foldl
    (fun best_hit sm =>
      match sm.1 with
      | .sphere obj =>
          let l := origin - obj.position
          let a := direction.dot direction
          let b := 2 * direction.dot l
          let c := l.dot l - obj.radius * obj.radius
          let disc := b * b - 4 * a * c
          if disc ≥ 0 then
            let sqrt_disc := sq disc
            let t0 := (-b - sqrt_disc) / (2 * a)
            let t1 := (-b + sqrt_disc) / (2 * a)
            let distance := if t0 > 0 then t0 else if t1 > 0 then t1 else -1
            if 0 < distance ∧ betterB distance best_hit then
              let hit_point := origin + direction * distance
              some { origin := hit_point
                     normal := normalizedW sq (hit_point - obj.position)
                     distance := distance
                     material_index := sm.2 }
            else best_hit
          else best_hit
      | .plane obj =>
          let denom := direction.dot obj.normal
          if |denom| > 1 / 1000000 then
            let distance := (obj.position - origin).dot obj.normal / denom
            if 0 < distance ∧ betterB distance best_hit then
              let hit_point := origin + direction * distance
              some { origin := hit_point
                     normal := normalizedW sq obj.normal
                     distance := distance
                     material_index := sm.2 }
            else best_hit
          else best_hit)
    none

/-- Embedding of the face record std::array of three usize vertex indices. -/
abbrev Face := Nat × Nat × Nat

/-- Fetch of a vertex by index as done throughout the BVH build; out-of-range
indices are undefined behaviour in the source, modelled by a default. -/
def vtx (vertices : List Vec3) (i : Nat) : Vec3 := vertices.getD i Vec3.zero

/-- The vertices referenced by a face range, in the visitation order of
compute_bounds: every face contributes its three indices in order. -/
def refVertices (vertices : List Vec3) (faces : List Face) : List Vec3 :=
  faces.flatMap (fun f => [vtx vertices f.1, vtx vertices f.2.1, vtx vertices f.2.2])

/-- One step of the per-axis min fold of compute_bounds.  The C++ seeds the
fold with positive infinity; the seed is realized as the none state of an
Option accumulator, so the first visited coordinate replaces it. -/
def minStep (acc : Option ℚ) (q : ℚ) : Option ℚ :=
  match acc with
  | none => some q
  | some p => some (min p q)

/-- One step of the per-axis max fold of compute_bounds (seed negative
infinity). -/
def maxStep (acc : Option ℚ) (q : ℚ) : Option ℚ :=
  match acc with
  | none => some q
  | some p => some (max p q)

/-- Embedding of Mesh.compute_bounds (world.hpp lines 104 to 126): per-axis min
and max over every vertex referenced by the face range.  When the range
references no vertex the C++ returns the infinite seeds; the embedding
collapses that (unreached by build_bvh) state to zero. -/
def compute_bounds (vertices : List Vec3) (faces : List Face) : Vec3 × Vec3 :=
  let vs := refVertices vertices faces
  let mn := vs.foldl
    (fun (acc : Option ℚ × Option ℚ × Option ℚ) v =>
      (minStep acc.1 v.x, minStep acc.2.1 v.y, minStep acc.2.2 v.z))
    (none, none, none)
  let mx := vs.foldl
    (fun (acc : Option ℚ × Option ℚ × Option ℚ) v =>
      (maxStep acc.1 v.x, maxStep acc.2.1 v.y, maxStep acc.2.2 v.z))
    (none, none, none)
  (⟨mn.1.getD 0, mn.2.1.getD 0, mn.2.2.getD 0⟩,
   ⟨mx.1.getD 0, mx.2.1.getD 0, mx.2.2.getD 0⟩)

/-- Coordinate access by axis number, as the operator bracket of the vector
does for the axis chosen by build_bvh (always 0, 1 or 2). -/
def Vec3.coord (v : Vec3) : Nat → ℚ
  | 0 => v.x
  | 1 => v.y
  | _ => v.z

/-- The face centroid of partition_faces: the mean of the three vertices. -/
def centroid (vertices : List Vec3) (f : Face) : Vec3 :=
  (vtx vertices f.1 + vtx vertices f.2.1 + vtx vertices f.2.2) / (3 : ℚ)

/-- In-place std::swap of two entries of the face array. -/
def swapL (l : List Face) (i j : Nat) : List Face :=
  let a := l.getD i (0, 0, 0)
  let b := l.getD j (0, 0, 0)
  (l.set i b).set j a

/-- Embedding of the loop of Mesh.partition_faces (world.hpp lines 128 to
150): the two cursors close in on each other; a face whose centroid lies below
the split on the chosen axis stays in front, any other face is swapped behind
the receding j cursor. -/
def partitionLoop (vertices : List Vec3) (axis : Nat) (split : ℚ)
    (faces : List Face) (i j : Nat) : Nat × List Face :=
  if h : i < j then
    let f := faces.getD i (0, 0, 0)
    let c := centroid vertices f
    if c.coord axis < split then
      partitionLoop vertices axis split faces (i + 1) j
    else
      partitionLoop vertices axis split (swapL faces i (j - 1)) i (j - 1)
  else (i, faces)
termination_by j - i
decreasing_by
  · omega
  · omega

/-- Embedding of Mesh.partition_faces: run the loop over the whole range. -/
def partition_faces (vertices : List Vec3) (faces : List Face) (axis : Nat)
    (split : ℚ) : Nat × List Face :=
  partitionLoop vertices axis split faces 0 faces.length

/-- Loop invariant of partition_faces: the face array is only permuted in
place (its length is fixed) and the returned cursor stays inside the range. -/
theorem partitionLoop_spec (vertices : List Vec3) (axis : Nat) (split : ℚ)
    (faces : List Face) (i j : Nat) :
    (partitionLoop vertices axis split faces i j).2.length = faces.length ∧
    i ≤ (partitionLoop vertices axis split faces i j).1 ∧
    (partitionLoop vertices axis split faces i j).1 ≤ max i j := by
  induction faces, i, j using partitionLoop.induct vertices axis split with
  | case1 faces i j h f c hp ih =>
      replace hp : (centroid vertices (faces.getD i (0, 0, 0))).coord axis < split := hp
      rw [partitionLoop, dif_pos h]
      simp only [hp, if_true]
      exact ⟨ih.1, by have := ih.2.1; omega, by have := ih.2.2; omega⟩
  | case2 faces i j h f c hp ih =>
      replace hp : ¬ (centroid vertices (faces.getD i (0, 0, 0))).coord axis < split := hp
      rw [partitionLoop, dif_pos h]
      simp only [hp, if_false]
      refine ⟨?_, by have := ih.2.1; omega, by have := ih.2.2; omega⟩
      rw [ih.1]; simp [swapL]
  | case3 faces i j h =>
      rw [partitionLoop, dif_neg h]
      exact ⟨rfl, Nat.le_refl i, Nat.le_max_left i j⟩

/-- The partition cursor of the full range is at most the face count, and the
permuted array keeps its length. -/
theorem partition_faces_spec (vertices : List Vec3) (faces : List Face)
    (axis : Nat) (split : ℚ) :
    (partition_faces vertices faces axis split).2.length = faces.length ∧
    (partition_faces vertices faces axis split).1 ≤ faces.length := by
  have h := partitionLoop_spec vertices axis split faces 0 faces.length
  unfold partition_faces
  exact ⟨h.1, by have := h.2.2; simp only [Nat.zero_le, max_eq_right] at this; omega⟩

/-- Output facts of partition_faces, keyed on the destructured result so they
apply without naming the axis and split terms: the face array is only
permuted (length preserved) and the cursor stays inside the range. -/
theorem partition_faces_out {vertices : List Vec3} {faces : List Face}
    {axis : Nat} {split : ℚ} {mid : Nat} {faces2 : List Face}
    (h : partition_faces vertices faces axis split = (mid, faces2)) :
    faces2.length = faces.length ∧ mid ≤ faces.length := by
  have hs := partition_faces_spec vertices faces axis split
  rw [h] at hs
  exact hs

/-- Embedding of Mesh.BvhNode (world.hpp lines 90 to 99): bounds, a face
range, and two optional owned children. -/
inductive BvhNode where
  | node (bound_min bound_max : Vec3) (face_index face_count : Nat)
      (left right : Option BvhNode)

/-- The axis selection of build_bvh (world.hpp lines 170 to 173): start at
axis 0, move to axis 1 if its extent is larger, then to axis 2 likewise. -/
def chooseAxis (extent : Vec3) : Nat :=
  let axis0 : Nat := 0
  let axis1 : Nat := if extent.coord 1 > extent.coord axis0 then 1 else axis0
  if extent.coord 2 > extent.coord axis1 then 2 else axis1

/-- The split plane of build_bvh (world.hpp line 175): the midpoint of the
bounds on the chosen axis. -/
def splitPlane (bmin bmax : Vec3) (axis : Nat) : ℚ :=
  (bmin.coord axis + bmax.coord axis) * (1 / 2)

/-- Embedding of Mesh.build_bvh (world.hpp lines 152 to 190).  The C++
recursion terminates because every recursive call passes a strictly shorter
face range; the embedding carries that measure as a structural fuel argument
(the build_bvh wrapper below supplies the face count, which the recursion can
never exhaust).  The unreachable fuel-0 state returns the same leaf node the
code returns for a range it does not split.  The faces span is mutated in
place by the C++; the embedding returns the built node together with the
reordered face range. -/
def build_bvh_fuel (vertices : List Vec3) :
    Nat → List Face → Nat → Nat → BvhNode × List Face
  | 0, faces, face_offset, _ =>
      let bounds := compute_bounds vertices faces
      (.node bounds.1 bounds.2 face_offset faces.length none none, faces)
  | fuel + 1, faces, face_offset, leaf_size =>
      let bounds := compute_bounds vertices faces
      let bmin := bounds.1
      let bmax := bounds.2
      if faces.length ≤ leaf_size then
        (.node bmin bmax face_offset faces.length none none, faces)
      else
        let extent := bmax - bmin
        let axis := chooseAxis extent
        let split := splitPlane bmin bmax axis
        let pr := partition_faces vertices faces axis split
        let mid := pr.1
        let faces2 := pr.2
        if mid = 0 ∨ mid = faces.length then
          (.node bmin bmax face_offset faces.length none none, faces2)
        else
          let lr := build_bvh_fuel vertices fuel (faces2.take mid) face_offset leaf_size
          let rr := build_bvh_fuel vertices fuel (faces2.drop mid) (face_offset + mid) leaf_size
          (.node bmin bmax face_offset faces.length (some lr.1) (some rr.1),
            lr.2 ++ rr.2)

/-- Embedding of the top-level Mesh.build_bvh call: fuel set to the face
count, which bounds the recursion depth. -/
def build_bvh (vertices : List Vec3) (faces : List Face)
    (face_offset leaf_size : Nat) : BvhNode × List Face :=
  build_bvh_fuel vertices faces.length faces face_offset leaf_size

/-- Leaf ranges of a BVH in left-to-right order.  A node is a leaf exactly
when both children are absent, the test intersect_bvh applies. -/
def leaves : BvhNode → List (Nat × Nat)
  | .node _ _ fi fc none none => [(fi, fc)]
  | .node _ _ _ _ (some l) (some r) => leaves l ++ leaves r
  | .node _ _ _ _ (some l) none => leaves l
  | .node _ _ _ _ none (some r) => leaves r

/-- The face positions covered by the leaf ranges, flattened in order. -/
def leafPositions (t : BvhNode) : List Nat :=
  (leaves t).flatMap (fun p => List.range' p.1 p.2)

/-- Embedding of Mesh.Shading. -/
inductive Shading where
  | flat
  | smooth
deriving DecidableEq

/-- Embedding of the data members of raytracer.Mesh (world.hpp lines 76 to
101); the BVH box is an optional owned tree. -/
structure Mesh where
  position : Vec3
  vertices : List Vec3
  faces : List Face
  scale : ℚ
  pitch : ℚ
  yaw : ℚ
  roll : ℚ
  shading : Shading
  bvh : Option BvhNode

/-- Embedding of Mesh.compute_bvh (world.hpp lines 193 to 199): an empty face
list gets the empty box, otherwise build_bvh runs over the whole face range
with offset 0 and the default leaf size of 4, reordering the faces in place. -/
def Mesh.compute_bvh (m : Mesh) : Mesh :=
  if m.faces.isEmpty then { m with bvh := none }
  else
    let r := build_bvh m.vertices m.faces 0 4
    { m with bvh := some r.1, faces := r.2 }

/-- Core coverage property of the build recursion: for every fuel, the leaf
ranges of the returned tree tile, in order, the interval of length
faces.length starting at face_offset, and the returned face range keeps its
length. -/
theorem build_bvh_fuel_spec (vertices : List Vec3) :
    ∀ (fuel : Nat) (faces : List Face) (face_offset leaf_size : Nat),
      leafPositions (build_bvh_fuel vertices fuel faces face_offset leaf_size).1 =
        List.range' face_offset faces.length ∧
      (build_bvh_fuel vertices fuel faces face_offset leaf_size).2.length = faces.length := by
  intro fuel
  induction fuel with
  | zero =>
      intro faces face_offset leaf_size
      exact ⟨by simp [build_bvh_fuel, leafPositions, leaves], rfl⟩
  | succ fuel ih =>
      intro faces face_offset leaf_size
      rw [build_bvh_fuel]
      by_cases hleaf : faces.length ≤ leaf_size
      · rw [if_pos hleaf]
        exact ⟨by simp [leafPositions, leaves], rfl⟩
      · rw [if_neg hleaf]
        simp only []
        obtain ⟨⟨mid, faces2⟩, hpr⟩ :
            ∃ p, partition_faces vertices faces
              (chooseAxis ((compute_bounds vertices faces).2 -
                (compute_bounds vertices faces).1))
              (splitPlane (compute_bounds vertices faces).1
                (compute_bounds vertices faces).2
                (chooseAxis ((compute_bounds vertices faces).2 -
                  (compute_bounds vertices faces).1))) = p := ⟨_, rfl⟩
        rw [hpr]
        simp only []
        have hs := partition_faces_out hpr
        split_ifs with hmid
        · exact ⟨by simp [leafPositions, leaves], hs.1⟩
        · have htake : (List.take mid faces2).length = mid := by
            simp only [List.length_take]
            omega
          have hdrop : (List.drop mid faces2).length = faces.length - mid := by
            simp only [List.length_drop]
            omega
          obtain ⟨c1, c2⟩ := ih (List.take mid faces2) face_offset leaf_size
          obtain ⟨d1, d2⟩ := ih (List.drop mid faces2) (face_offset + mid) leaf_size
          constructor
          · simp only [leafPositions, leaves, List.flatMap_append]
            simp only [leafPositions] at c1 d1
            rw [c1, d1, htake, hdrop]
            have hap := List.range'_append face_offset mid (faces.length - mid) 1
            simp only [one_mul] at hap
            rw [hap]
            congr 1
            omega
          · simp only [List.length_append, c2, d2, htake, hdrop]
            omega

/-- Coverage transported to the top-level build_bvh wrapper. -/
theorem build_bvh_spec (vertices : List Vec3) (faces : List Face)
    (face_offset leaf_size : Nat) :
    leafPositions (build_bvh vertices faces face_offset leaf_size).1 =
      List.range' face_offset faces.length ∧
    (build_bvh vertices faces face_offset leaf_size).2.length = faces.length :=
  build_bvh_fuel_spec vertices faces.length faces face_offset leaf_size

/-- The virtual material equality is symmetric: kinds match symmetrically and
the compared fields are equalities. -/
theorem matEq_symm {a b : Material} (h : matEq a b = true) : matEq b a = true := by
  cases a <;> cases b <;> simp_all [matEq]

/-- The virtual material equality is transitive on the compared fields. -/
theorem matEq_trans {a b c : Material} (h1 : matEq a b = true)
    (h2 : matEq b c = true) : matEq a c = true := by
  cases a <;> cases b <;> cases c <;> simp_all [matEq]

/-- Materials equal under the virtual equality are accepted by exactly the
same stored materials. -/
theorem matEq_congr_right {m1 m2 : Material} (h : matEq m1 m2 = true)
    (x : Material) : matEq x m1 = matEq x m2 := by
  by_cases h1 : matEq x m1
  · rw [h1, (matEq_trans h1 h).symm]
  · by_cases h2 : matEq x m2
    · exact absurd (matEq_trans h2 (matEq_symm h)) h1
    · simp only [Bool.not_eq_true] at h1 h2
      rw [h1, h2]

/-- The iterator walk returns the same index for virtually equal arguments. -/
theorem indirectFindAux_congr {m1 m2 : Material} (h : matEq m1 m2 = true) :
    ∀ (mats : List Material) (i : Nat),
      indirectFindAux mats m1 i = indirectFindAux mats m2 i := by
  intro mats
  induction mats with
  | nil => intro i; rfl
  | cons m rest ih =>
      intro i
      simp only [indirectFindAux]
      rw [matEq_congr_right h m]
      by_cases hc : matEq m m2
      · rw [if_pos hc, if_pos hc]
      · rw [if_neg hc, if_neg hc, ih]

/-- A failed iterator walk means no stored material accepts the argument. -/
theorem indirectFindAux_none {e : Material} :
    ∀ {mats : List Material} {i : Nat},
      indirectFindAux mats e i = none → ∀ x ∈ mats, matEq x e = false := by
  intro mats
  induction mats with
  | nil => intro i _ x hx; cases hx
  | cons m rest ih =>
      intro i h x hx
      simp only [indirectFindAux] at h
      by_cases hc : matEq m e
      · rw [if_pos hc] at h; cases h
      · rw [if_neg hc] at h
        rcases List.mem_cons.mp hx with rfl | hx2
        · simpa using hc
        · exact ih h x hx2

/-- After a failed walk, the walk over the list with the missing material
appended finds it (or any virtually equal material) at the appended slot. -/
theorem indirectFindAux_append {e1 e2 : Material} (h : matEq e1 e2 = true) :
    ∀ (mats : List Material) (i : Nat),
      indirectFindAux mats e1 i = none →
      indirectFindAux (mats ++ [e1]) e2 i = some (i + mats.length) := by
  intro mats
  induction mats with
  | nil =>
      intro i _
      simp [indirectFindAux, h]
  | cons m rest ih =>
      intro i hn
      simp only [indirectFindAux] at hn ⊢
      by_cases hc : matEq m e1
      · rw [if_pos hc] at hn; cases hn
      · rw [if_neg hc] at hn
        have hc2 : ¬ matEq m e2 = true := fun hcc =>
          hc (matEq_trans hcc (matEq_symm h))
        rw [if_neg hc2]
        simp only [List.append_eq]
        rw [ih (i + 1) hn]
        congr 1
        simp only [List.length_cons]
        omega

/-- Dedup behaviour of two consecutive adds with virtually equal materials,
shared by the claims: both appended object records carry one common material
index, and at most one material is appended across the two calls (the second
add appends none). -/
theorem add_dedup (w : World) (s1 s2 : Shape) (m1 m2 : Material)
    (h : matEq m1 m2 = true) :
    ∃ mi, ((w.add s1 m1).1.add s2 m2).1.object_data =
        w.object_data ++ [(s1, mi), (s2, mi)] ∧
      ((w.add s1 m1).1.add s2 m2).1.material_data =
        (w.add s1 m1).1.material_data ∧
      ((w.add s1 m1).1.add s2 m2).1.material_data.length ≤
        w.material_data.length + 1 := by
  unfold World.add
  cases hf : indirectFind w.material_data m1 with
  | some i =>
      have hf2 : indirectFind w.material_data m2 = some i := by
        rw [indirectFind, ← indirectFindAux_congr h, ← indirectFind, hf]
      simp only [hf, hf2]
      refine ⟨i, ?_, ?_, ?_⟩
      · simp
      · trivial
      · omega
  | none =>
      have hf2 : indirectFind (w.material_data ++ [m1]) m2 =
          some w.material_data.length := by
        have := indirectFindAux_append h w.material_data 0 hf
        simpa [indirectFind] using this
      simp only [hf, hf2]
      refine ⟨w.material_data.length, ?_, ?_, ?_⟩
      · simp
      · trivial
      · simp

/-- The first accepted index comes with an accepting member of the list. -/
theorem indirectFindAux_some {e : Material} :
    ∀ {mats : List Material} {i j : Nat},
      indirectFindAux mats e i = some j → ∃ x ∈ mats, matEq x e = true := by
  intro mats
  induction mats with
  | nil => intro i j h; cases h
  | cons m rest ih =>
      intro i j h
      simp only [indirectFindAux] at h
      by_cases hc : matEq m e
      · exact ⟨m, by simp, hc⟩
      · rw [if_neg hc] at h
        obtain ⟨x, hx, hxe⟩ := ih h
        exact ⟨x, by simp [hx], hxe⟩

/-- C1: material deduplication.  For every world, adding shape1 with m1 and
then shape2 with m2, where m1 == m2 under the virtual material equality,
appends at most one material; the second add reuses the index produced by the
first and both appended object records carry that common material index.  On
the fresh world, whose pre-existing default red solid sits at index 0, two
equal added Lambert materials give a material collection of size 2 and both
object records carry material index 1. -/
theorem C1_material_dedup :
    (∀ (w : World) (s1 s2 : Shape) (m1 m2 : Material), matEq m1 m2 = true →
      ∃ mi, ((w.add s1 m1).1.add s2 m2).1.object_data =
          w.object_data ++ [(s1, mi), (s2, mi)] ∧
        ((w.add s1 m1).1.add s2 m2).1.material_data.length ≤
          w.material_data.length + 1) ∧
    (∀ (s1 s2 : Shape) (c : Color) (d : ℚ),
      ((World.init.add s1 (.lambert c d)).1.add s2 (.lambert c d)).1.material_data =
        [.solid picoRed.toColor, .lambert c d] ∧
      ((World.init.add s1 (.lambert c d)).1.add s2 (.lambert c d)).1.object_data =
        [(s1, 1), (s2, 1)]) := by
  constructor
  · intro w s1 s2 m1 m2 h
    obtain ⟨mi, h1, _, h3⟩ := add_dedup w s1 s2 m1 m2 h
    exact ⟨mi, h1, h3⟩
  · intro s1 s2 c d
    constructor <;>
      simp [World.add, World.init, indirectFind, indirectFindAux, matEq]

/-- Witness for C1: the general statement applied at the fresh world and a
concrete pair of structurally equal gray Lambert materials. -/
theorem C1_material_dedup_witness :
    matEq (.lambert ⟨1/2, 1/2, 1/2⟩ 1) (.lambert ⟨1/2, 1/2, 1/2⟩ 1) = true ∧
    (∃ mi, ((World.init.add (.sphere ⟨Vec3.zero, 1⟩)
          (.lambert ⟨1/2, 1/2, 1/2⟩ 1)).1.add (.sphere ⟨Vec3.zero, 1⟩)
          (.lambert ⟨1/2, 1/2, 1/2⟩ 1)).1.object_data =
        World.init.object_data ++
          [(.sphere ⟨Vec3.zero, 1⟩, mi), (.sphere ⟨Vec3.zero, 1⟩, mi)] ∧
      ((World.init.add (.sphere ⟨Vec3.zero, 1⟩)
          (.lambert ⟨1/2, 1/2, 1/2⟩ 1)).1.add (.sphere ⟨Vec3.zero, 1⟩)
          (.lambert ⟨1/2, 1/2, 1/2⟩ 1)).1.material_data.length ≤
        World.init.material_data.length + 1) :=
  ⟨by simp [matEq],
   C1_material_dedup.1 World.init _ _ _ _ (by simp [matEq])⟩

/-- Two adds whose materials are found at the same stored index produce the
same world and handle: the found branch of add never reads the argument. -/
theorem add_find_eq (w : World) (s : Shape) {m m2 : Material} {i : Nat}
    (h1 : indirectFind w.material_data m = some i)
    (h2 : indirectFind w.material_data m2 = some i) :
    w.add s m = w.add s m2 := by
  unfold World.add
  rw [h1, h2]

/-- C10: the virtual equality compares only a subset of the fields.  Two
Lambert materials with one color and any two reflectances are equal
(diffuse_reflectance is ignored), and BSDF equality ignores emissive.
Consequently, after adding a Lambert, a second add with the same color
deduplicates onto one index whatever its reflectance: the whole result of the
second add is independent of the second reflectance, and on the fresh world
the shared slot stores the first material, so the second object silently
shades with the first diffuse_reflectance. -/
theorem C10_ignored_fields :
    (∀ (c : Color) (d1 d2 : ℚ), matEq (.lambert c d1) (.lambert c d2) = true) ∧
    (∀ (c e1 e2 : Color) (r m : ℚ),
      matEq (.bsdf c e1 r m) (.bsdf c e2 r m) = true) ∧
    (∀ (w : World) (s1 s2 : Shape) (c : Color) (d1 d2 d2' : ℚ),
      (w.add s1 (.lambert c d1)).1.add s2 (.lambert c d2) =
        (w.add s1 (.lambert c d1)).1.add s2 (.lambert c d2')) ∧
    (∀ (s1 s2 : Shape) (c : Color) (d1 d2 : ℚ),
      ((World.init.add s1 (.lambert c d1)).1.add s2 (.lambert c d2)).1.object_data =
        [(s1, 1), (s2, 1)] ∧
      ((World.init.add s1 (.lambert c d1)).1.add s2 (.lambert c d2)).1.material 1 =
        .lambert c d1) := by
  refine ⟨?_, ?_, ?_, ?_⟩
  · intro c d1 d2; simp [matEq]
  · intro c e1 e2 r m; simp [matEq]
  · intro w s1 s2 c d1 d2 d2'
    have hmem : ∃ x ∈ (w.add s1 (.lambert c d1)).1.material_data,
        matEq x (.lambert c d2) = true := by
      unfold World.add
      cases hf : indirectFind w.material_data (.lambert c d1) with
      | some i =>
          obtain ⟨x, hx, hxe⟩ := indirectFindAux_some hf
          exact ⟨x, hx, matEq_trans hxe (by simp [matEq])⟩
      | none => exact ⟨.lambert c d1, by simp, by simp [matEq]⟩
    have hne : indirectFind (w.add s1 (.lambert c d1)).1.material_data
        (.lambert c d2) ≠ none := by
      intro hcon
      obtain ⟨x, hx, hxe⟩ := hmem
      have := indirectFindAux_none hcon x hx
      rw [this] at hxe
      cases hxe
    have hcongr : indirectFind (w.add s1 (.lambert c d1)).1.material_data
          (.lambert c d2) =
        indirectFind (w.add s1 (.lambert c d1)).1.material_data
          (.lambert c d2') :=
      indirectFindAux_congr (by simp [matEq]) _ 0
    cases hf2 : indirectFind (w.add s1 (.lambert c d1)).1.material_data
        (.lambert c d2) with
    | some i =>
        have hf3 : indirectFind (w.add s1 (.lambert c d1)).1.material_data
            (.lambert c d2') = some i := by rw [← hcongr, hf2]
        exact add_find_eq _ s2 hf2 hf3
    | none => exact absurd hf2 hne
  · intro s1 s2 c d1 d2
    constructor <;>
      simp [World.add, World.init, World.material, indirectFind,
        indirectFindAux, matEq]

/-- C2: BVH coverage.  Every mesh with at least one face has, after
compute_bvh, a built BVH whose leaf ranges tile [0, faces.length) exactly: the
flattened leaf ranges equal that interval in order, so every face position is
counted exactly once across the leaves (the degenerate median partitions that
turn a node into a leaf included). -/
theorem C2_bvh_coverage (m : Mesh) (h : m.faces ≠ []) :
    ∃ t, m.compute_bvh.bvh = some t ∧
      leafPositions t = List.range' 0 m.faces.length ∧
      ∀ k, (leafPositions t).count k = if k < m.faces.length then 1 else 0 := by
  unfold Mesh.compute_bvh
  rw [if_neg (by simpa [List.isEmpty_iff] using h)]
  refine ⟨_, rfl, (build_bvh_spec m.vertices m.faces 0 4).1, ?_⟩
  intro k
  rw [(build_bvh_spec m.vertices m.faces 0 4).1]
  by_cases hk : k < m.faces.length
  · rw [if_pos hk]
    exact List.count_eq_one_of_mem (List.nodup_range' 0 m.faces.length)
      (List.mem_range'_1.mpr ⟨Nat.zero_le k, by omega⟩)
  · rw [if_neg hk]
    exact List.count_eq_zero_of_not_mem
      (fun hmem => hk (by have := List.mem_range'_1.mp hmem; omega))

/-- A concrete six-face mesh whose build exercises a genuine median split. -/
def meshDemo : Mesh :=
  { position := Vec3.zero
    vertices := [⟨0, 0, 0⟩, ⟨1, 0, 0⟩, ⟨2, 0, 0⟩, ⟨3, 0, 0⟩, ⟨10, 0, 0⟩, ⟨11, 0, 0⟩]
    faces := [(0, 0, 0), (1, 1, 1), (2, 2, 2), (3, 3, 3), (4, 4, 4), (5, 5, 5)]
    scale := 1
    pitch := 0
    yaw := 0
    roll := 0
    shading := .flat
    bvh := none }

/-- Witness for C2 at the six-face mesh. -/
theorem C2_bvh_coverage_witness :
    meshDemo.faces ≠ [] ∧
    (∃ t, meshDemo.compute_bvh.bvh = some t ∧
      leafPositions t = List.range' 0 meshDemo.faces.length ∧
      ∀ k, (leafPositions t).count k =
        if k < meshDemo.faces.length then 1 else 0) :=
  ⟨by decide, C2_bvh_coverage meshDemo (by decide)⟩

/-- The clamp used by the conversion never exceeds 255. -/
theorem clampQ_le_255 (v : ℚ) : clampQ v 0 255 ≤ 255 := by
  unfold clampQ
  split_ifs <;> linarith

/-- The truncation of a value at most 255 is at most 255. -/
theorem truncToNat_le_255 (q : ℚ) (h : q ≤ 255) : truncToNat q ≤ 255 := by
  unfold truncToNat
  rw [Int.toNat_le]
  calc ⌊q⌋ ≤ ⌊(255 : ℚ)⌋ := Int.floor_le_floor h
    _ = 255 := by norm_num

/-- C7 counterexample: at the color with red channel 1/2 the code conversion
yields byte 127 (truncation of the clamped 127.5) while the round of the
claim yields 128. -/
theorem C7_counterexample :
    (Color.toDrawColor ⟨1/2, 0, 0⟩).r = 127 ∧ specRoundChannel (1/2) = 128 ∧
    (Color.toDrawColor ⟨1/2, 0, 0⟩).r ≠ specRoundChannel (1/2) := by
  refine ⟨?_, ?_, ?_⟩ <;>
    (norm_num [Color.toDrawColor, DrawColor.rgba, truncToNat, clampQ,
      specRoundChannel]
     omega)

/-- C7 amended: the conversion to 8-bit truncates after clamping.  Every
channel of the produced draw color is the toward-zero truncation of
clamp(c * 255, 0, 255), the alpha is 255, and each channel fits in a byte. -/
theorem C7_color_conversion (c : Color) :
    c.toDrawColor =
      ⟨truncToNat (clampQ (c.r * 255) 0 255),
       truncToNat (clampQ (c.g * 255) 0 255),
       truncToNat (clampQ (c.b * 255) 0 255), 255⟩ ∧
    c.toDrawColor.r ≤ 255 ∧ c.toDrawColor.g ≤ 255 ∧ c.toDrawColor.b ≤ 255 :=
  ⟨rfl, truncToNat_le_255 _ (clampQ_le_255 _),
    truncToNat_le_255 _ (clampQ_le_255 _),
    truncToNat_le_255 _ (clampQ_le_255 _)⟩

/-- The declaration order of the six BSDF modes. -/
def modeOrder : List Mode :=
  [.default, .diffuse, .cookTorrance, .fresnel, .normalDistribution,
    .microfacets]

/-- C9 counterexample: seven cycles starting from the initial Default mode end
at Diffuse, not Default (the cycle has period six). -/
theorem C9_counterexample :
    (World.cycle_bsdf_mode^[7] World.init).bsdf_mode = Mode.diffuse ∧
    Mode.diffuse ≠ Mode.default := ⟨rfl, by decide⟩

/-- C9 amended: cycle_bsdf_mode steps to the successor in declaration order,
wrapping at the end (every mode and its successor form a consecutive pair of
the declaration-order list, the last wrapping to the first), so six calls, one
per variant, return the mode to its starting value; in particular six calls
(not seven) from Default end at Default again. -/
theorem C9_cycle_order :
    (∀ w : World, (w.bsdf_mode, (w.cycle_bsdf_mode).bsdf_mode) ∈
      modeOrder.zip (modeOrder.tail ++ [Mode.default])) ∧
    (∀ w : World, (World.cycle_bsdf_mode^[6] w).bsdf_mode = w.bsdf_mode) := by
  constructor
  · intro w
    cases w with
    | mk od md ld cp cpit cy cr bg fv cb sh bm gm =>
        cases bm <;> simp [World.cycle_bsdf_mode, modeOrder]
  · intro w
    cases w with
    | mk od md ld cp cpit cy cr bg fv cb sh bm gm =>
        cases bm <;> rfl

/-- The quadratic coefficient a of the sphere branch of cast_ray. -/
def sphereA (direction : Vec3) : ℚ := direction.dot direction

/-- The quadratic coefficient b of the sphere branch of cast_ray. -/
def sphereB (S : Sphere) (origin direction : Vec3) : ℚ :=
  2 * direction.dot (origin - S.position)

/-- The quadratic coefficient c of the sphere branch of cast_ray. -/
def sphereC (S : Sphere) (origin : Vec3) : ℚ :=
  (origin - S.position).dot (origin - S.position) - S.radius * S.radius

/-- The discriminant of the sphere branch of cast_ray. -/
def sphereDisc (S : Sphere) (origin direction : Vec3) : ℚ :=
  sphereB S origin direction * sphereB S origin direction -
    4 * sphereA direction * sphereC S origin

/-- The sphere branch of cast_ray on a world holding a single sphere object,
written as a closed expression in the quadratic coefficients. -/
theorem cast_ray_single_sphere (sq : ℚ → ℚ) (w : World) (S : Sphere) (mi : Nat)
    (origin direction : Vec3) (hobj : w.object_data = [(.sphere S, mi)]) :
    w.cast_ray sq origin direction =
      (if sphereDisc S origin direction ≥ 0 then
        let t0 := (-(sphereB S origin direction) - sq (sphereDisc S origin direction)) /
          (2 * sphereA direction)
        let t1 := (-(sphereB S origin direction) + sq (sphereDisc S origin direction)) /
          (2 * sphereA direction)
        let distance := if t0 > 0 then t0 else if t1 > 0 then t1 else -1
        if 0 < distance then
          some { origin := origin + direction * distance
                 normal := normalizedW sq (origin + direction * distance - S.position)
                 distance := distance
                 material_index := mi }
        else none
      else none) := by
  rw [World.cast_ray, hobj]
  simp [betterB, sphereA, sphereB, sphereC, sphereDisc]

/-- Componentwise unfolding of vector subtraction, for concrete evaluation. -/
theorem Vec3.sub_def (a b : Vec3) : a - b = ⟨a.x - b.x, a.y - b.y, a.z - b.z⟩ := rfl

/-- Componentwise unfolding of vector addition, for concrete evaluation. -/
theorem Vec3.add_def (a b : Vec3) : a + b = ⟨a.x + b.x, a.y + b.y, a.z + b.z⟩ := rfl

/-- Componentwise unfolding of scaling, for concrete evaluation. -/
theorem Vec3.smul_def (a : Vec3) (s : ℚ) : a * s = ⟨a.x * s, a.y * s, a.z * s⟩ := rfl

/-- Componentwise unfolding of division by a scalar, for concrete evaluation. -/
theorem Vec3.sdiv_def (a : Vec3) (s : ℚ) : a / s = ⟨a.x / s, a.y / s, a.z / s⟩ := rfl

/-- Componentwise unfolding of adding a scalar, for concrete evaluation. -/
theorem Vec3.sadd_def (a : Vec3) (s : ℚ) : a + s = ⟨a.x + s, a.y + s, a.z + s⟩ := rfl

/-- A real root of the quadratic forces a nonnegative discriminant: the
discriminant is the square of 2at + b at any root. -/
theorem quad_disc_nonneg {a b c t : ℚ} (ht : a * t ^ 2 + b * t + c = 0) :
    0 ≤ b * b - 4 * a * c := by
  have key : b * b - 4 * a * c =
      (2 * a * t + b) ^ 2 - 4 * a * (a * t ^ 2 + b * t + c) := by ring
  rw [key, ht]
  simpa using sq_nonneg (2 * a * t + b)

/-- Any root of the quadratic is one of the two closed-form roots. -/
theorem quad_root_cases {a b c s t : ℚ} (ha : a ≠ 0)
    (hs : s * s = b * b - 4 * a * c) (ht : a * t ^ 2 + b * t + c = 0) :
    t = (-b - s) / (2 * a) ∨ t = (-b + s) / (2 * a) := by
  have h2a : (2 * a) ≠ 0 := fun h => ha (by linarith)
  have key : (2 * a * t + b - s) * (2 * a * t + b + s) = 0 := by
    linear_combination 4 * a * ht - hs
  rcases mul_eq_zero.mp key with h | h
  · right
    rw [eq_div_iff h2a]
    linarith
  · left
    rw [eq_div_iff h2a]
    linarith

/-- The closed-form value (-b - s) / (2a) is a root whenever s squares to the
discriminant. -/
theorem quad_root_t0 {a b c s : ℚ} (ha : a ≠ 0)
    (hs : s * s = b * b - 4 * a * c) :
    a * ((-b - s) / (2 * a)) ^ 2 + b * ((-b - s) / (2 * a)) + c = 0 := by
  have h2a : (2 * a) ≠ 0 := fun h => ha (by linarith)
  field_simp
  ring_nf
  nlinarith [hs]

/-- The square-root oracle used by the concrete C3 round trip: the code calls
sqrt at the discriminant 4 and inside the one normalization at 1. -/
def sqC3 : ℚ → ℚ := fun q => if q = 4 then 2 else if q = 1 then 1 else 0

/-- C3: the sphere branch of cast_ray returns the smallest positive root.
For a world holding a single sphere, under a square-root oracle exact on the
discriminant, cast_ray reports a hit exactly when the quadratic
a t^2 + b t + c (a, b, c the coefficients the code builds) has a positive
root, and the reported distance is its smallest positive root.  Conjoined:
the concrete round trip of the spec, with a unit sphere at the origin and the
ray from (0,0,-5) toward (0,0,1), hits at distance 4 with normal (0,0,-1). -/
theorem C3_sphere_least_root :
    (∀ (sq : ℚ → ℚ) (w : World) (S : Sphere) (mi : Nat) (origin direction : Vec3),
      w.object_data = [(.sphere S, mi)] →
      0 < sphereA direction →
      (0 ≤ sphereDisc S origin direction →
        0 ≤ sq (sphereDisc S origin direction) ∧
        sq (sphereDisc S origin direction) * sq (sphereDisc S origin direction) =
          sphereDisc S origin direction) →
      ((∃ h, w.cast_ray sq origin direction = some h) ↔
        (∃ t : ℚ, 0 < t ∧ sphereA direction * t ^ 2 +
          sphereB S origin direction * t + sphereC S origin = 0)) ∧
      (∀ h, w.cast_ray sq origin direction = some h →
        0 < h.distance ∧
        sphereA direction * h.distance ^ 2 +
          sphereB S origin direction * h.distance + sphereC S origin = 0 ∧
        ∀ t : ℚ, 0 < t →
          sphereA direction * t ^ 2 + sphereB S origin direction * t +
            sphereC S origin = 0 → h.distance ≤ t)) ∧
    ((World.init.add (.sphere ⟨Vec3.zero, 1⟩) (.solid picoRed.toColor)).1.cast_ray
        sqC3 ⟨0, 0, -5⟩ ⟨0, 0, 1⟩ =
      some ⟨⟨0, 0, -1⟩, ⟨0, 0, -1⟩, 4, 0⟩) := by
  constructor
  · intro sq w S mi origin direction hobj ha hsq
    rw [cast_ray_single_sphere sq w S mi origin direction hobj]
    have hdisc : sphereDisc S origin direction =
        sphereB S origin direction * sphereB S origin direction -
          4 * sphereA direction * sphereC S origin := rfl
    have hane : sphereA direction ≠ 0 := ne_of_gt ha
    by_cases hd : sphereDisc S origin direction ≥ 0
    · obtain ⟨hs0, hs2⟩ := hsq hd
      rw [if_pos hd]
      simp only []
      set a := sphereA direction
      set b := sphereB S origin direction
      set c := sphereC S origin
      set s := sq (sphereDisc S origin direction) with hS
      have hsq2 : s * s = b * b - 4 * a * c := by rw [hs2, hdisc]
      have ht0root : a * ((-b - s) / (2 * a)) ^ 2 + b * ((-b - s) / (2 * a)) + c = 0 :=
        quad_root_t0 hane hsq2
      have ht1root : a * ((-b + s) / (2 * a)) ^ 2 + b * ((-b + s) / (2 * a)) + c = 0 := by
        have := @quad_root_t0 a b c (-s) hane (by rw [neg_mul_neg]; exact hsq2)
        simpa [sub_neg_eq_add] using this
      have h2a : (0 : ℚ) < 2 * a := by linarith
      have ht01 : (-b - s) / (2 * a) ≤ (-b + s) / (2 * a) :=
        (div_le_div_iff_of_pos_right h2a).mpr (by linarith)
      by_cases h0 : (-b - s) / (2 * a) > 0
      · rw [if_pos h0, if_pos h0]
        constructor
        · exact ⟨fun _ => ⟨(-b - s) / (2 * a), h0, ht0root⟩, fun _ => ⟨_, rfl⟩⟩
        · intro h hh
          obtain rfl := (Option.some.injEq _ _).mp hh.symm
          refine ⟨h0, ht0root, ?_⟩
          intro t ht hroot
          rcases quad_root_cases hane hsq2 hroot with rfl | rfl
          · exact le_refl _
          · exact ht01
      · rw [if_neg h0]
        by_cases h1 : (-b + s) / (2 * a) > 0
        · rw [if_pos h1, if_pos h1]
          constructor
          · exact ⟨fun _ => ⟨(-b + s) / (2 * a), h1, ht1root⟩, fun _ => ⟨_, rfl⟩⟩
          · intro h hh
            obtain rfl := (Option.some.injEq _ _).mp hh.symm
            refine ⟨h1, ht1root, ?_⟩
            intro t ht hroot
            rcases quad_root_cases hane hsq2 hroot with rfl | rfl
            · exact absurd ht (by simpa using h0)
            · exact le_refl _
        · rw [if_neg h1, if_neg (by norm_num)]
          constructor
          · constructor
            · rintro ⟨h, hh⟩; cases hh
            · rintro ⟨t, ht, hroot⟩
              rcases quad_root_cases hane hsq2 hroot with rfl | rfl
              · exact absurd ht (by simpa using h0)
              · exact absurd ht (by simpa using h1)
          · intro h hh; cases hh
    · rw [if_neg hd]
      constructor
      · constructor
        · rintro ⟨h, hh⟩; cases hh
        · rintro ⟨t, ht, hroot⟩
          have hge := quad_disc_nonneg hroot
          rw [← hdisc] at hge
          exact absurd hge hd
      · intro h hh; cases hh
  · norm_num [World.cast_ray, World.add, World.init, indirectFind,
      indirectFindAux, matEq, betterB, normalizedW, magnitudeW, sqC3,
      Vec3.dot, Vec3.sub_def, Vec3.add_def, Vec3.smul_def, Vec3.sdiv_def,
      picoRed, DrawColor.toColor, Vec3.zero]

/-- Witness for C3: the general statement applied to the single unit sphere at
the origin and the ray of the spec, with the oracle exact on the discriminant
4; every hypothesis is discharged by evaluation. -/
theorem C3_sphere_least_root_witness :
    ((∃ h, (World.init.add (.sphere ⟨Vec3.zero, 1⟩)
        (.solid picoRed.toColor)).1.cast_ray sqC3 ⟨0, 0, -5⟩ ⟨0, 0, 1⟩ = some h) ↔
      (∃ t : ℚ, 0 < t ∧ sphereA ⟨0, 0, 1⟩ * t ^ 2 +
        sphereB ⟨Vec3.zero, 1⟩ ⟨0, 0, -5⟩ ⟨0, 0, 1⟩ * t +
        sphereC ⟨Vec3.zero, 1⟩ ⟨0, 0, -5⟩ = 0)) ∧
    (∀ h, (World.init.add (.sphere ⟨Vec3.zero, 1⟩)
        (.solid picoRed.toColor)).1.cast_ray sqC3 ⟨0, 0, -5⟩ ⟨0, 0, 1⟩ = some h →
      0 < h.distance ∧
      sphereA ⟨0, 0, 1⟩ * h.distance ^ 2 +
        sphereB ⟨Vec3.zero, 1⟩ ⟨0, 0, -5⟩ ⟨0, 0, 1⟩ * h.distance +
        sphereC ⟨Vec3.zero, 1⟩ ⟨0, 0, -5⟩ = 0 ∧
      ∀ t : ℚ, 0 < t →
        sphereA ⟨0, 0, 1⟩ * t ^ 2 +
          sphereB ⟨Vec3.zero, 1⟩ ⟨0, 0, -5⟩ ⟨0, 0, 1⟩ * t +
          sphereC ⟨Vec3.zero, 1⟩ ⟨0, 0, -5⟩ = 0 → h.distance ≤ t) :=
  C3_sphere_least_root.1 sqC3
    (World.init.add (.sphere ⟨Vec3.zero, 1⟩) (.solid picoRed.toColor)).1
    ⟨Vec3.zero, 1⟩ 0 ⟨0, 0, -5⟩ ⟨0, 0, 1⟩
    (by norm_num [World.add, World.init, indirectFind, indirectFindAux, matEq,
      picoRed, DrawColor.toColor])
    (by norm_num [sphereA, Vec3.dot])
    (by norm_num [sphereDisc, sphereA, sphereB, sphereC, Vec3.dot,
      Vec3.sub_def, sqC3, Vec3.zero])

/-- One light iteration of LambertMaterial::shade (world.cpp lines 10 to 27):
compute the light direction and distance, skip the light when shadows are on
and the ray cast from the origin bumped by the normalized normal times 0.001
hits strictly closer than the light, otherwise accumulate the Lambert
diffuse term scaled by the reflectance.  The view direction and half vector
of the source are computed and never used; they are omitted here. -/
def lambertLightStep (sq : ℚ → ℚ) (w : World) (color : Color) (dr : ℚ)
    (hit : Hit) (out_color : Vec3) (light : PointLight) : Vec3 :=
  let light_direction := normalizedW sq (light.position - hit.origin)
  let distance_to_light := magnitudeW sq (light.position - hit.origin)
  let skip : Bool :=
    if w.shadows then
      match w.cast_ray sq (hit.origin + normalizedW sq hit.normal * ((1 : ℚ) / 1000))
          light_direction with
      | some shadow_hit => decide (shadow_hit.distance < distance_to_light)
      | none => false
    else false
  if skip then out_color
  else
    let lambert_diffuse :=
      (light.color.toVec.hadamard color.toVec) *
        max 0 (hit.normal.dot light_direction)
    out_color + lambert_diffuse * dr

/-- Embedding of LambertMaterial::shade (world.cpp lines 5 to 30): fold the
per-light step over the lights, starting from the zero color vector. -/
def lambertShade (sq : ℚ → ℚ) (w : World) (color : Color) (dr : ℚ)
    (hit : Hit) : Color :=
  (w.light_data.foldl (lambertLightStep sq w color dr hit) Vec3.zero).toColor

/-- An occluded light leaves the accumulator unchanged. -/
theorem lambertLightStep_skip (sq : ℚ → ℚ) (w : World) (color : Color)
    (dr : ℚ) (hit : Hit) (out_color : Vec3) (light : PointLight)
    (hsh : w.shadows = true)
    (hocc : ∃ sh, w.cast_ray sq
        (hit.origin + normalizedW sq hit.normal * ((1 : ℚ) / 1000))
        (normalizedW sq (light.position - hit.origin)) = some sh ∧
      sh.distance < magnitudeW sq (light.position - hit.origin)) :
    lambertLightStep sq w color dr hit out_color light = out_color := by
  obtain ⟨sh, hcast, hlt⟩ := hocc
  unfold lambertLightStep
  rw [hsh]
  simp only [if_true, hcast, hlt, decide_eq_true_eq]

/-- C5: Lambert shadow cutoff.  With shadows enabled, a hit for which every
light is occluded (the shadow ray from the bumped origin toward the light
hits strictly closer than the light) shades to black under
LambertMaterial::shade. -/
theorem C5_lambert_shadow_cutoff (sq : ℚ → ℚ) (w : World) (color : Color)
    (dr : ℚ) (hit : Hit) (hsh : w.shadows = true)
    (hocc : ∀ light ∈ w.light_data,
      ∃ sh, w.cast_ray sq
          (hit.origin + normalizedW sq hit.normal * ((1 : ℚ) / 1000))
          (normalizedW sq (light.position - hit.origin)) = some sh ∧
        sh.distance < magnitudeW sq (light.position - hit.origin)) :
    lambertShade sq w color dr hit = ⟨0, 0, 0⟩ := by
  unfold lambertShade
  have key : ∀ (lights : List PointLight),
      (∀ light ∈ lights, ∃ sh, w.cast_ray sq
          (hit.origin + normalizedW sq hit.normal * ((1 : ℚ) / 1000))
          (normalizedW sq (light.position - hit.origin)) = some sh ∧
        sh.distance < magnitudeW sq (light.position - hit.origin)) →
      ∀ acc : Vec3,
        lights.foldl (lambertLightStep sq w color dr hit) acc = acc := by
    intro lights
    induction lights with
    | nil => intro _ acc; rfl
    | cons light rest ih =>
        intro hall acc
        rw [List.foldl_cons,
          lambertLightStep_skip sq w color dr hit acc light hsh
            (hall light (by simp))]
        exact ih (fun l hl => hall l (by simp [hl])) acc
  rw [key w.light_data hocc Vec3.zero]
  rfl

/-- The square-root oracle for the concrete C5 scene: the code takes roots at
100 (the light distance squared), 4 (the occluder discriminant) and 1 (unit
normalizations). -/
def sqC5 : ℚ → ℚ :=
  fun q => if q = 100 then 10 else if q = 4 then 2 else if q = 1 then 1 else 0

/-- Witness for C5: a hit at the origin facing up, one light straight above
at distance 10, and a unit occluder sphere centered between them; the shadow
ray hits the occluder at distance 3.999 and the Lambert shade is black. -/
theorem C5_lambert_shadow_cutoff_witness :
    ((World.init.add (.sphere ⟨⟨0, 5, 0⟩, 1⟩)
        (.solid picoRed.toColor)).1.addLight
        ⟨⟨0, 10, 0⟩, ⟨1, 1, 1⟩⟩).shadows = true ∧
    (∀ light ∈ ((World.init.add (.sphere ⟨⟨0, 5, 0⟩, 1⟩)
        (.solid picoRed.toColor)).1.addLight
        ⟨⟨0, 10, 0⟩, ⟨1, 1, 1⟩⟩).light_data,
      ∃ sh, ((World.init.add (.sphere ⟨⟨0, 5, 0⟩, 1⟩)
          (.solid picoRed.toColor)).1.addLight
          ⟨⟨0, 10, 0⟩, ⟨1, 1, 1⟩⟩).cast_ray sqC5
          ((⟨⟨0, 0, 0⟩, ⟨0, 1, 0⟩, 0, 0⟩ : Hit).origin +
            normalizedW sqC5 (⟨⟨0, 0, 0⟩, ⟨0, 1, 0⟩, 0, 0⟩ : Hit).normal *
              ((1 : ℚ) / 1000))
          (normalizedW sqC5 (light.position -
            (⟨⟨0, 0, 0⟩, ⟨0, 1, 0⟩, 0, 0⟩ : Hit).origin)) = some sh ∧
        sh.distance < magnitudeW sqC5 (light.position -
          (⟨⟨0, 0, 0⟩, ⟨0, 1, 0⟩, 0, 0⟩ : Hit).origin)) ∧
    lambertShade sqC5 ((World.init.add (.sphere ⟨⟨0, 5, 0⟩, 1⟩)
        (.solid picoRed.toColor)).1.addLight
        ⟨⟨0, 10, 0⟩, ⟨1, 1, 1⟩⟩) ⟨1, 1, 1⟩ 1
      ⟨⟨0, 0, 0⟩, ⟨0, 1, 0⟩, 0, 0⟩ = ⟨0, 0, 0⟩ := by
  have hsh : ((World.init.add (.sphere ⟨⟨0, 5, 0⟩, 1⟩)
      (.solid picoRed.toColor)).1.addLight
      ⟨⟨0, 10, 0⟩, ⟨1, 1, 1⟩⟩).shadows = true := by
    simp [World.addLight, World.add, World.init, indirectFind,
      indirectFindAux, matEq]
  have hocc : ∀ light ∈ ((World.init.add (.sphere ⟨⟨0, 5, 0⟩, 1⟩)
      (.solid picoRed.toColor)).1.addLight
      ⟨⟨0, 10, 0⟩, ⟨1, 1, 1⟩⟩).light_data,
      ∃ sh, ((World.init.add (.sphere ⟨⟨0, 5, 0⟩, 1⟩)
          (.solid picoRed.toColor)).1.addLight
          ⟨⟨0, 10, 0⟩, ⟨1, 1, 1⟩⟩).cast_ray sqC5
          ((⟨⟨0, 0, 0⟩, ⟨0, 1, 0⟩, 0, 0⟩ : Hit).origin +
            normalizedW sqC5 (⟨⟨0, 0, 0⟩, ⟨0, 1, 0⟩, 0, 0⟩ : Hit).normal *
              ((1 : ℚ) / 1000))
          (normalizedW sqC5 (light.position -
            (⟨⟨0, 0, 0⟩, ⟨0, 1, 0⟩, 0, 0⟩ : Hit).origin)) = some sh ∧
        sh.distance < magnitudeW sqC5 (light.position -
          (⟨⟨0, 0, 0⟩, ⟨0, 1, 0⟩, 0, 0⟩ : Hit).origin) := by
    intro light hl
    simp only [World.addLight, World.add, World.init, indirectFind,
      indirectFindAux, matEq] at hl
    rw [show light = (⟨⟨0, 10, 0⟩, ⟨1, 1, 1⟩⟩ : PointLight) by
      revert hl
      norm_num [List.mem_singleton]]
    refine ⟨⟨⟨0, 4, 0⟩, ⟨0, -1, 0⟩, 3999 / 1000, 0⟩, ?_, ?_⟩
    · norm_num [World.cast_ray, World.addLight, World.add, World.init,
        indirectFind, indirectFindAux, matEq, betterB, normalizedW,
        magnitudeW, sqC5, Vec3.dot, Vec3.sub_def, Vec3.add_def,
        Vec3.smul_def, Vec3.sdiv_def, picoRed, DrawColor.toColor, Vec3.zero]
    · norm_num [magnitudeW, sqC5, Vec3.sub_def, Vec3.dot]
  exact ⟨hsh, hocc, C5_lambert_shadow_cutoff sqC5 _ ⟨1, 1, 1⟩ 1
    ⟨⟨0, 0, 0⟩, ⟨0, 1, 0⟩, 0, 0⟩ hsh hocc⟩

/-- Embedding of math.sq: the square. -/
def sqQ (value : ℚ) : ℚ := value * value

/-- The EPSILON constant of BsdfMaterial::shade (.001f). -/
def bsdfEPSILON : ℚ := 1 / 1000

/-- The per-light intermediate quantities of BsdfMaterial::shade (world.cpp
lines 46 to 82), named as in the source.  The roughness argument is the
already-squared member roughness, as the local shadowing at line 37 makes it.
The shadow check of the source (lines 50 to 54) is commented out there and
has no counterpart here. -/
structure BsdfTerms where
  normal_distribution : ℚ
  fresnel : Vec3
  microfacets : ℚ
  cook_torrance : Vec3
  lambert_diffuse : Vec3
  diffuse_reflectance : Vec3
  ndotl : ℚ

/-- Computation of the per-light terms (world.cpp lines 46 to 82). -/
def bsdfLightTerms (O : FloatOracle) (base_color base_reflectivity
    view_direction : Vec3) (roughness metallic : ℚ) (hit : Hit)
    (light : PointLight) : BsdfTerms :=
  let light_direction := normalizedW O.sqrtO (light.position - hit.origin)
  let half := normalizedW O.sqrtO (view_direction + light_direction)
  let normal_distribution :=
    sqQ roughness /
      (pi32 * sqQ (sqQ (hit.normal.dot half) * (sqQ roughness - 1) + 1))
  let fresnel : Vec3 :=
    base_reflectivity + ((⟨1, 1, 1⟩ : Vec3) - base_reflectivity) *
      (1 - clampQ (half.dot view_direction) 0 1) ^ 5
  let direct_k := sqQ (roughness + 1) / 8
  let ndotv := clampQ (hit.normal.dot view_direction) 0 1
  let ndotl := clampQ (hit.normal.dot light_direction) 0 1
  let microfacets :=
    (ndotv / max bsdfEPSILON (ndotv * (1 - direct_k) + direct_k)) *
      (ndotl / max bsdfEPSILON (ndotl * (1 - direct_k) + direct_k))
  let cook_torrance : Vec3 :=
    (fresnel * normal_distribution * microfacets) /
      (4 * view_direction.dot hit.normal * light_direction.dot hit.normal)
  let lambert_diffuse : Vec3 :=
    (light.color.toVec.hadamard base_color) *
      max 0 (hit.normal.dot light_direction)
  let diffuse_reflectance : Vec3 := ((⟨1, 1, 1⟩ : Vec3) - fresnel) * (1 - metallic)
  { normal_distribution := normal_distribution
    fresnel := fresnel
    microfacets := microfacets
    cook_torrance := cook_torrance
    lambert_diffuse := lambert_diffuse
    diffuse_reflectance := diffuse_reflectance
    ndotl := ndotl }

/-- One light iteration of the specular and diffuse pass: the accumulation
switch on the bsdf mode of the world (world.cpp lines 84 to 105).  A scalar
term is accumulated componentwise, as the vector operator plus scalar does. -/
def bsdfLightStep (O : FloatOracle) (w : World) (base_color base_reflectivity
    view_direction : Vec3) (roughness metallic : ℚ) (hit : Hit)
    (out_color : Vec3) (light : PointLight) : Vec3 :=
  let T := bsdfLightTerms O base_color base_reflectivity view_direction
    roughness metallic hit light
  match w.bsdf_mode with
  | .default =>
      out_color + (T.diffuse_reflectance.hadamard T.lambert_diffuse +
        T.cook_torrance.hadamard light.color.toVec * T.ndotl)
  | .diffuse => out_color + T.lambert_diffuse
  | .cookTorrance => out_color + T.cook_torrance
  | .fresnel => out_color + T.fresnel
  | .normalDistribution => out_color + T.normal_distribution
  | .microfacets => out_color + T.microfacets

/-- Embedding of build_tangent_space (world.cpp lines 143 to 150). -/
def buildTangentSpace (sq : ℚ → ℚ) (n : Vec3) : Vec3 × Vec3 :=
  let t := if |n.x| > |n.z| then normalizedW sq ⟨-n.y, n.x, 0⟩
    else normalizedW sq ⟨0, -n.z, n.y⟩
  (t, n.cross t)

/-- Embedding of sample_cosine_hemisphere (world.cpp lines 161 to 169), the
roughness-biased sampler; the diffuse-only sampler of lines 152 to 159 is
defined in the source and never called. -/
def sample_cosine_hemisphere (O : FloatOracle) (u1 u2 roughness : ℚ) : Vec3 :=
  let r := O.sqrtO u1 * roughness
  let phi := 2 * mathPi * u2
  let x := r * O.cosO phi
  let z := r * O.sinO phi
  let y := O.sqrtO (max 0 (1 - x * x - z * z))
  ⟨x, y, z⟩

/-- The 32 by 32 deterministic GI direction grid (world.cpp lines 184 to
206): ring index r gives theta and u1 (which cancel back to the ring
fraction exactly, as in the exact arithmetic of the source expression),
sample index s gives u2; the phi, sin and cos locals of the loop are unused
in the source and omitted. -/
def gi_directions (O : FloatOracle) (roughness : ℚ) : List Vec3 :=
  (List.range 32).flatMap (fun r =>
    (List.range 32).map (fun s =>
      let t := ((r : ℚ) + 1 / 2) / 32
      let theta := t * (mathPi * (1 / 2))
      let u1 := theta / (mathPi * (1 / 2))
      let u2 := (s : ℚ) / 32
      sample_cosine_hemisphere O u1 u2 roughness))

/-- Embedding of the material shade dispatch together with
BsdfMaterial::shade (world.cpp lines 32 to 230).  The recursion (the GI
bounce, and the disabled reflection) is bounded: a recursive call happens
only under depth < 1 (GI) or behind the literal-false reflection guard, so
the structural fuel of 2 supplied by shade below can never run out; the
unreachable fuel-0 state returns black.  The reflection pass guard keeps the
literal false of world.cpp line 109, so that branch is dead code here exactly
as in the source. -/
def shadeFuel (O : FloatOracle) (w : World) :
    Nat → Material → Hit → Nat → Color
  | 0, _, _, _ => ⟨0, 0, 0⟩
  | fuel + 1, m, hit, depth =>
    match m with
    | .solid color => color
    | .lambert color dr => lambertShade O.sqrtO w color dr hit
    | .bsdf color emissive roughness0 metallic =>
      let base_color : Vec3 := color.toVec
      let roughness := roughness0 * roughness0
      let base_reflectivity := mixV ⟨4/100, 4/100, 4/100⟩ base_color metallic
      let view_direction := normalizedW O.sqrtO (w.camera_position - hit.origin)
      let out_color := w.light_data.foldl
        (bsdfLightStep O w base_color base_reflectivity view_direction
          roughness metallic hit) Vec3.zero
      let out_color2 :=
        if False ∧ depth < 4 ∧ 0 < metallic ∧ 1 - roughness > bsdfEPSILON then
          let reflect_direction := normalizedW O.sqrtO
            (-view_direction + hit.normal * (2 * view_direction.dot hit.normal))
          let reflect_origin := hit.origin + hit.normal * bsdfEPSILON
          match w.cast_ray O.sqrtO reflect_origin reflect_direction with
          | some next_hit =>
            let reflected_color := shadeFuel O w fuel
              (w.material next_hit.material_index) next_hit (depth + 1)
            let reflection_strength := 1 - roughness
            let specular := (reflected_color.toVec.hadamard
              ((base_reflectivity + ((⟨1, 1, 1⟩ : Vec3) - base_reflectivity) *
                (1 - clampQ (hit.normal.dot view_direction) 0 1) ^ 5 : Vec3))).hadamard
              (mixV ⟨1, 1, 1⟩ base_color metallic)
            out_color + specular * (metallic * reflection_strength)
          | none =>
            let specular := (w.background_color.toVec.hadamard
              ((base_reflectivity + ((⟨1, 1, 1⟩ : Vec3) - base_reflectivity) *
                (1 - clampQ (hit.normal.dot
                  (normalizedW O.sqrtO (w.camera_position - hit.origin))) 0 1) ^ 5 : Vec3))).hadamard
              (mixV ⟨1, 1, 1⟩ base_color metallic)
            let reflection_strength := 1 - roughness
            out_color + specular * (metallic * reflection_strength)
        else out_color
      let gi_color : Vec3 :=
        if w.gi_mode = GiMode.simple then
          if depth < 1 then
            let gi_origin := hit.origin + hit.normal * bsdfEPSILON
            let tb := buildTangentSpace O.sqrtO hit.normal
            ((gi_directions O roughness).foldl (fun acc dir =>
              let world_dir := tb.1 * dir.x + hit.normal * dir.y + tb.2 * dir.z
              match w.cast_ray O.sqrtO gi_origin world_dir with
              | some bounce_hit =>
                let bounce_color := shadeFuel O w fuel
                  (w.material bounce_hit.material_index) bounce_hit (depth + 1)
                let cosine := max 0 (world_dir.dot hit.normal)
                acc + ((base_color.hadamard bounce_color.toVec) * cosine).mapQ
                  (fun e => min 1 e)
              | none => acc + base_color.hadamard w.background_color.toVec)
              Vec3.zero) / (1024 : ℚ)
          else Vec3.zero
        else Vec3.zero
      (out_color2 + gi_color + emissive.toVec).toColor

/-- Embedding of the virtual shade entry point: fuel 2 covers the deepest
possible chain (a primary shade at depth 0 and its GI bounce at depth 1,
which recurses no further). -/
def shade (O : FloatOracle) (w : World) (m : Material) (hit : Hit)
    (depth : Nat) : Color :=
  shadeFuel O w 2 m hit depth

/-- Adding the zero vector on the left is the identity. -/
theorem Vec3.zero_add (v : Vec3) : Vec3.zero + v = v := by
  cases v
  simp [Vec3.zero, Vec3.add_def]

/-- Adding the zero vector on the right is the identity. -/
theorem Vec3.add_zero (v : Vec3) : v + Vec3.zero = v := by
  cases v
  simp [Vec3.zero, Vec3.add_def]

/-- Accumulating a scalar into the zero vector splats it. -/
theorem Vec3.zero_sadd (s : ℚ) : Vec3.zero + s = (⟨s, s, s⟩ : Vec3) := by
  simp [Vec3.zero, Vec3.sadd_def]

/-- Literal form of the left identity. -/
theorem Vec3.zero_add_lit (v : Vec3) : (⟨0, 0, 0⟩ : Vec3) + v = v := by
  cases v
  simp [Vec3.add_def]

/-- Literal form of the right identity. -/
theorem Vec3.add_zero_lit (v : Vec3) : v + (⟨0, 0, 0⟩ : Vec3) = v := by
  cases v
  simp [Vec3.add_def]

/-- Literal form of the scalar splat. -/
theorem Vec3.zero_sadd_lit (s : ℚ) : (⟨0, 0, 0⟩ : Vec3) + s = (⟨s, s, s⟩ : Vec3) := by
  simp [Vec3.sadd_def]

/-- C6 amended: mode isolation up to the raw component.  For every
single-light scene with GI off and zero emissive, BsdfMaterial::shade in each
non-default mode returns exactly the raw named component of the per-light
computation: Diffuse the unweighted Lambert diffuse term (without the
(1 - F)(1 - metallic) weight that the Default accumulation applies),
CookTorrance the raw specular quotient (without the componentwise light-color
times ndotl factor of the Default accumulation), Fresnel the Schlick term, and
NormalDistribution and Microfacets the scalar GGX and Smith-Schlick terms
splatted across the channels; Default accumulates the weighted combination of
the same components. -/
theorem C6_mode_isolation (O : FloatOracle) (w : World) (color : Color)
    (rough0 metallic : ℚ) (hit : Hit) (light : PointLight) (depth : Nat)
    (hl : w.light_data = [light]) (hg : w.gi_mode = GiMode.none) :
    shade O w (.bsdf color ⟨0, 0, 0⟩ rough0 metallic) hit depth =
      (let T := bsdfLightTerms O color.toVec
          (mixV ⟨4/100, 4/100, 4/100⟩ color.toVec metallic)
          (normalizedW O.sqrtO (w.camera_position - hit.origin))
          (rough0 * rough0) metallic hit light;
        match w.bsdf_mode with
        | .default => ((T.diffuse_reflectance.hadamard T.lambert_diffuse +
            T.cook_torrance.hadamard light.color.toVec * T.ndotl) : Vec3).toColor
        | .diffuse => T.lambert_diffuse.toColor
        | .cookTorrance => T.cook_torrance.toColor
        | .fresnel => T.fresnel.toColor
        | .normalDistribution =>
            (⟨T.normal_distribution, T.normal_distribution,
              T.normal_distribution⟩ : Vec3).toColor
        | .microfacets =>
            (⟨T.microfacets, T.microfacets, T.microfacets⟩ : Vec3).toColor) := by
  unfold shade shadeFuel
  rw [hl]
  simp only [List.foldl_cons, List.foldl_nil, hg, false_and, if_false]
  cases hmode : w.bsdf_mode <;>
    simp [bsdfLightStep, hmode, Vec3.zero_add, Vec3.add_zero, Vec3.zero_sadd,
      Vec3.zero_add_lit, Vec3.add_zero_lit, Vec3.zero_sadd_lit, Color.toVec]

/-- The oracle for the concrete C6 scene: the roots the code takes are at 9
(the view and light distances squared) and 4 (the half-vector norm squared);
GI is off so the trigonometric oracles are never consulted. -/
def O6 : FloatOracle :=
  ⟨fun q => if q = 9 then 3 else if q = 4 then 2 else 0,
   fun _ => 0, fun _ => 0, fun _ => 0⟩

/-- The concrete C6 scene: one white light straight above the hit, the camera
at the light, Diffuse mode, GI off. -/
def w6 : World :=
  { World.init with
      camera_position := ⟨0, 3, 0⟩
      light_data := [⟨⟨0, 3, 0⟩, ⟨1, 1, 1⟩⟩]
      bsdf_mode := Mode.diffuse }

/-- C6 counterexample: in Diffuse mode the shader returns the unweighted
Lambert term (1, 0, 0), but the diffuse term as it appears in the Default
accumulation carries the (1 - F)(1 - metallic) weight and equals
(24/25, 0, 0); the claim that the Diffuse mode output equals the Default
diffuse term fails at this scene. -/
theorem C6_counterexample :
    shade O6 w6 (.bsdf ⟨1, 0, 0⟩ ⟨0, 0, 0⟩ 1 0)
        ⟨⟨0, 0, 0⟩, ⟨0, 1, 0⟩, 1, 0⟩ 0 = ⟨1, 0, 0⟩ ∧
    ((bsdfLightTerms O6 (Color.toVec ⟨1, 0, 0⟩)
        (mixV ⟨4/100, 4/100, 4/100⟩ (Color.toVec ⟨1, 0, 0⟩) 0)
        (normalizedW O6.sqrtO (w6.camera_position - ⟨0, 0, 0⟩)) (1 * 1) 0
        ⟨⟨0, 0, 0⟩, ⟨0, 1, 0⟩, 1, 0⟩
        ⟨⟨0, 3, 0⟩, ⟨1, 1, 1⟩⟩).diffuse_reflectance.hadamard
      (bsdfLightTerms O6 (Color.toVec ⟨1, 0, 0⟩)
        (mixV ⟨4/100, 4/100, 4/100⟩ (Color.toVec ⟨1, 0, 0⟩) 0)
        (normalizedW O6.sqrtO (w6.camera_position - ⟨0, 0, 0⟩)) (1 * 1) 0
        ⟨⟨0, 0, 0⟩, ⟨0, 1, 0⟩, 1, 0⟩
        ⟨⟨0, 3, 0⟩, ⟨1, 1, 1⟩⟩).lambert_diffuse) = (⟨24/25, 0, 0⟩ : Vec3) ∧
    (⟨1, 0, 0⟩ : Color) ≠ ((⟨24/25, 0, 0⟩ : Vec3).toColor) := by
  refine ⟨?_, ?_, ?_⟩
  · unfold shade shadeFuel
    simp only [show w6.light_data = [(⟨⟨0, 3, 0⟩, ⟨1, 1, 1⟩⟩ : PointLight)] from rfl,
      List.foldl_cons, List.foldl_nil, false_and, if_false,
      show (w6.gi_mode = GiMode.simple) = False from by
        simp [w6, World.init]]
    norm_num [bsdfLightStep, bsdfLightTerms, normalizedW,
      magnitudeW, sqQ, bsdfEPSILON, clampQ, mixV, mixQ, pi32, O6, w6,
      World.init, Color.toVec, Vec3.toColor, Vec3.dot, Vec3.sub_def,
      Vec3.add_def, Vec3.smul_def, Vec3.sdiv_def, Vec3.sadd_def,
      Vec3.hadamard, Vec3.zero]
  · norm_num [bsdfLightTerms, normalizedW, magnitudeW, sqQ, bsdfEPSILON,
      clampQ, mixV, mixQ, pi32, O6, w6, World.init, Color.toVec, Vec3.dot,
      Vec3.sub_def, Vec3.add_def, Vec3.smul_def, Vec3.sdiv_def,
      Vec3.sadd_def, Vec3.hadamard]
  · intro h
    have := congrArg Color.r h
    norm_num [Vec3.toColor] at this

/-- Witness for C6: the amended statement applied at the concrete Diffuse
scene. -/
theorem C6_mode_isolation_witness :
    w6.light_data = [⟨⟨0, 3, 0⟩, ⟨1, 1, 1⟩⟩] ∧ w6.gi_mode = GiMode.none ∧
    shade O6 w6 (.bsdf ⟨1, 0, 0⟩ ⟨0, 0, 0⟩ 1 0)
        ⟨⟨0, 0, 0⟩, ⟨0, 1, 0⟩, 1, 0⟩ 0 =
      (let T := bsdfLightTerms O6 (Color.toVec ⟨1, 0, 0⟩)
          (mixV ⟨4/100, 4/100, 4/100⟩ (Color.toVec ⟨1, 0, 0⟩) 0)
          (normalizedW O6.sqrtO (w6.camera_position -
            (⟨⟨0, 0, 0⟩, ⟨0, 1, 0⟩, 1, 0⟩ : Hit).origin))
          (1 * 1) 0 ⟨⟨0, 0, 0⟩, ⟨0, 1, 0⟩, 1, 0⟩ ⟨⟨0, 3, 0⟩, ⟨1, 1, 1⟩⟩;
        match w6.bsdf_mode with
        | .default => ((T.diffuse_reflectance.hadamard T.lambert_diffuse +
            T.cook_torrance.hadamard
              (Color.toVec ⟨1, 1, 1⟩) * T.ndotl) : Vec3).toColor
        | .diffuse => T.lambert_diffuse.toColor
        | .cookTorrance => T.cook_torrance.toColor
        | .fresnel => T.fresnel.toColor
        | .normalDistribution =>
            (⟨T.normal_distribution, T.normal_distribution,
              T.normal_distribution⟩ : Vec3).toColor
        | .microfacets =>
            (⟨T.microfacets, T.microfacets, T.microfacets⟩ : Vec3).toColor) :=
  ⟨rfl, rfl,
   C6_mode_isolation O6 w6 ⟨1, 0, 0⟩ 1 0 ⟨⟨0, 0, 0⟩, ⟨0, 1, 0⟩, 1, 0⟩
     ⟨⟨0, 3, 0⟩, ⟨1, 1, 1⟩⟩ 0 rfl rfl⟩

/-- The reflection-pass contribution as the specification mandates it: the
body of the branch at world.cpp lines 110-138, which the source guards with a
literal false. On a hit the next surface is shaded at depth + 1; on a miss
the environment sample is the background color. Clearly spec-side: the source
never executes this code. -/
def bsdfReflectionContribution (O : FloatOracle) (w : World)
    (base_color base_reflectivity view_direction : Vec3)
    (roughness metallic : ℚ) (hit : Hit) (depth : Nat) : Vec3 :=
  let reflect_direction := normalizedW O.sqrtO
    (-view_direction + hit.normal * (2 * view_direction.dot hit.normal))
  let reflect_origin := hit.origin + hit.normal * bsdfEPSILON
  match w.cast_ray O.sqrtO reflect_origin reflect_direction with
  | some next_hit =>
    let reflected_color := shade O w
      (w.material next_hit.material_index) next_hit (depth + 1)
    let reflection_strength := 1 - roughness
    let specular := ((reflected_color.toVec).hadamard
      ((base_reflectivity + ((⟨1, 1, 1⟩ : Vec3) - base_reflectivity) *
        (1 - clampQ (hit.normal.dot view_direction) 0 1) ^ 5 : Vec3))).hadamard
      (mixV ⟨1, 1, 1⟩ base_color metallic)
    specular * (metallic * reflection_strength)
  | none =>
    let specular := ((w.background_color.toVec).hadamard
      ((base_reflectivity + ((⟨1, 1, 1⟩ : Vec3) - base_reflectivity) *
        (1 - clampQ (hit.normal.dot
          (normalizedW O.sqrtO (w.camera_position - hit.origin))) 0 1) ^ 5 :
        Vec3))).hadamard
      (mixV ⟨1, 1, 1⟩ base_color metallic)
    let reflection_strength := 1 - roughness
    specular * (metallic * reflection_strength)

/-- Oracle for the C4 scene: only sqrt 1 = 1 is consulted. -/
def O4 : FloatOracle := ⟨fun q => if q = 1 then 1 else 0,
   fun _ => 0, fun _ => 0, fun _ => 0⟩

/-- The C4 scene: an otherwise default world with a white background, no
objects and no lights, so the only mandated output is the reflection pass
environment sample. -/
def w4 : World := { World.init with background_color := ⟨1, 1, 1⟩ }

/-- C4 code bug: the reflection pass is dead code. At a fully metallic,
perfectly smooth hit at depth 0 every condition of the documented guard
holds (depth < 4, metallic > 0, 1 - roughness > 1e-3), yet shade returns
black because the guard in the source starts with a literal false, while
the contribution the specification mandates for this hit is the white
environment sample (1, 1, 1). -/
theorem C4_reflection_disabled :
    ((0 : Nat) < 4 ∧ (0 : ℚ) < 1 ∧ (1 : ℚ) - 0 * 0 > bsdfEPSILON) ∧
    shade O4 w4 (.bsdf ⟨1, 1, 1⟩ ⟨0, 0, 0⟩ 0 1)
      ⟨⟨0, 0, 1⟩, ⟨0, 0, -1⟩, 1, 0⟩ 0 = ⟨0, 0, 0⟩ ∧
    bsdfReflectionContribution O4 w4 (Color.toVec ⟨1, 1, 1⟩)
      (mixV ⟨4/100, 4/100, 4/100⟩ (Color.toVec ⟨1, 1, 1⟩) 1)
      (normalizedW O4.sqrtO (w4.camera_position - ⟨0, 0, 1⟩))
      (0 * 0) 1 ⟨⟨0, 0, 1⟩, ⟨0, 0, -1⟩, 1, 0⟩ 0 = ⟨1, 1, 1⟩ ∧
    (⟨1, 1, 1⟩ : Vec3) ≠ (⟨0, 0, 0⟩ : Vec3) := by
  refine ⟨⟨by norm_num, by norm_num, by norm_num [bsdfEPSILON]⟩, ?_, ?_, ?_⟩
  · unfold shade shadeFuel
    simp only [show w4.light_data = ([] : List PointLight) from rfl,
      List.foldl_nil, false_and, if_false,
      show (w4.gi_mode = GiMode.simple) = False from by
        simp [w4, World.init]]
    norm_num [Color.toVec, Vec3.toColor, Vec3.zero, Vec3.add_def,
      Vec3.sadd_def]
  · norm_num [bsdfReflectionContribution, World.cast_ray, normalizedW,
      magnitudeW, clampQ, mixV, mixQ, O4, w4, World.init, Color.toVec,
      Vec3.dot, Vec3.sub_def, Vec3.add_def, Vec3.smul_def, Vec3.sdiv_def,
      Vec3.sadd_def, Vec3.hadamard, Vec3.zero, bsdfEPSILON]
  · intro h
    have := congrArg Vec3.x h
    norm_num at this

/-- Embedding of math::Matrix with W = 3, H = 3: row i holds data[i][0..2]
exactly as listed in the rotation constructors. -/
structure Mat3 where
  r0 : Vec3
  r1 : Vec3
  r2 : Vec3
deriving DecidableEq

/-- Embedding of the Vector * Matrix overload for Vector = Matrix with W = 3,
H = 1. The source writes result.data[0][j] (j up to 2) into an array declared
data[3][1]; the contiguous layout flattens that to element j, so the loop
computes the row-vector product result[j] = sum over k of v[k] * m[k][j]. -/
def vecMulMat (v : Vec3) (m : Mat3) : Vec3 :=
  ⟨v.x * m.r0.x + v.y * m.r1.x + v.z * m.r2.x,
   v.x * m.r0.y + v.y * m.r1.y + v.z * m.r2.y,
   v.x * m.r0.z + v.y * m.r1.z + v.z * m.r2.z⟩

/-- Embedding of the square Matrix * Matrix overload at 3 by 3: row i of the
product is the row-vector product of row i with the right factor. -/
def mat3Mul (a b : Mat3) : Mat3 :=
  ⟨vecMulMat a.r0 b, vecMulMat a.r1 b, vecMulMat a.r2 b⟩

/-- Embedding of Matrix::rotation(Pitch, a) at 3 by 3, with the trigonometric
evaluations delegated to the oracle. -/
def rotationPitch (O : FloatOracle) (a : ℚ) : Mat3 :=
  ⟨⟨1, 0, 0⟩, ⟨0, O.cosO a, -(O.sinO a)⟩, ⟨0, O.sinO a, O.cosO a⟩⟩

/-- Embedding of Matrix::rotation(Yaw, a) at 3 by 3. -/
def rotationYaw (O : FloatOracle) (a : ℚ) : Mat3 :=
  ⟨⟨O.cosO a, 0, O.sinO a⟩, ⟨0, 1, 0⟩, ⟨-(O.sinO a), 0, O.cosO a⟩⟩

/-- Embedding of World::rotation_matrix: pitch rotation times yaw rotation. -/
def World.rotation_matrix (O : FloatOracle) (w : World) : Mat3 :=
  mat3Mul (rotationPitch O w.camera_pitch) (rotationYaw O w.camera_yaw)

/-- Embedding of the per-pixel body of World::draw after the parity test:
build the NDC coordinates, scale by tan(fov / 2), normalize, rotate by the
camera matrix, cast the primary ray, and on a hit shade at depth 0 and
convert to the 8-bit draw color; on a miss nothing is written. -/
def rayPixel (O : FloatOracle) (w : World) (width height x y : Nat) :
    Option DrawColor :=
  let aspect := (width : ℚ) / (height : ℚ)
  let half_fov_tan := O.tanO (w.fov / 2)
  let rotation_matrix := World.rotation_matrix O w
  let ndc_x := (2 * ((x : ℚ) + 1/2) / (width : ℚ) - 1) * aspect
  let ndc_y := 1 - 2 * ((y : ℚ) + 1/2) / (height : ℚ)
  let px := ndc_x * half_fov_tan
  let py := ndc_y * half_fov_tan
  let ray_dir := vecMulMat (normalizedW O.sqrtO ⟨px, py, 1⟩) rotation_matrix
  match w.cast_ray O.sqrtO w.camera_position ray_dir with
  | some hit => some (shade O w (w.material hit.material_index) hit 0).toDrawColor
  | none => none

/-- Embedding of one pixel of one World::draw frame: the parity test
checkerboard and (x + y + counter) mod 2 == 0 skips the pixel (returns
none without consulting the ray); otherwise the pixel body runs. -/
def drawPixel (O : FloatOracle) (w : World) (counter width height x y : Nat) :
    Option DrawColor :=
  if w.checkerboard = true ∧ (x + y + counter) % 2 = 0 then none
  else rayPixel O w width height x y

/-- Oracle for the C8 scenes: no irrational call matters because the world
is empty, so every oracle is constantly zero. -/
def O8 : FloatOracle := ⟨fun _ => 0, fun _ => 0, fun _ => 0, fun _ => 0⟩

/-- C8 amended: with checkerboard on, the parity test skips a pixel in
exactly one of two frames whose counters differ by one; in the skipped
frame nothing is written, and in the other frame the pixel body runs — it
writes the ray result on a hit and leaves the pixel untouched on a miss,
so a written pixel in both frames is not guaranteed. -/
theorem C8_checkerboard_phase (O : FloatOracle) (w : World)
    (c width height x y : Nat) (hcb : w.checkerboard = true) :
    ((x + y + c) % 2 = 0 ∧
      drawPixel O w c width height x y = none ∧
      drawPixel O w (c + 1) width height x y = rayPixel O w width height x y) ∨
    ((x + y + (c + 1)) % 2 = 0 ∧
      drawPixel O w (c + 1) width height x y = none ∧
      drawPixel O w c width height x y = rayPixel O w width height x y) := by
  by_cases hp : (x + y + c) % 2 = 0
  · have hq : ¬ (x + y + (c + 1)) % 2 = 0 := by omega
    exact Or.inl ⟨hp, by simp [drawPixel, hcb, hp], by simp [drawPixel, hq]⟩
  · have hq : (x + y + (c + 1)) % 2 = 0 := by omega
    exact Or.inr ⟨hq, by simp [drawPixel, hcb, hq], by simp [drawPixel, hp]⟩

/-- Witness for C8: the amended statement at the default world, counter 0,
pixel (0, 0) of a 1 by 1 target. -/
theorem C8_checkerboard_phase_witness :
    World.init.checkerboard = true ∧
    (((0 + 0 + 0) % 2 = 0 ∧
      drawPixel O8 World.init 0 1 1 0 0 = none ∧
      drawPixel O8 World.init (0 + 1) 1 1 0 0 = rayPixel O8 World.init 1 1 0 0) ∨
     ((0 + 0 + (0 + 1)) % 2 = 0 ∧
      drawPixel O8 World.init (0 + 1) 1 1 0 0 = none ∧
      drawPixel O8 World.init 0 1 1 0 0 = rayPixel O8 World.init 1 1 0 0)) :=
  ⟨rfl, C8_checkerboard_phase O8 World.init 0 1 1 0 0 rfl⟩

/-- C8 counterexample: in the empty default world (checkerboard on) the
pixel (0, 0) is written in neither of the frames with counters 0 and 1 —
frame 0 skips it by parity and frame 1 runs the body but the ray misses —
refuting the claim that every pixel is written in exactly one of two
consecutive frames. -/
theorem C8_counterexample :
    World.init.checkerboard = true ∧
    drawPixel O8 World.init 0 4 4 0 0 = none ∧
    drawPixel O8 World.init 1 4 4 0 0 = none := by
  refine ⟨rfl, by simp [drawPixel, World.init], ?_⟩
  have hp : ¬ ((0 : Nat) + 0 + 1) % 2 = 0 := by omega
  simp only [drawPixel, hp, and_false, if_false]
  simp [rayPixel, World.cast_ray, World.init]

end raytracer
